import Mathlib

/-!
Verification development for the VideoCopilot repository.

Part 1 models the continuous-deployment shell script `k8s-deploy.sh`:
its change detection (`detect_changes`), image building (`build_service`),
manifest application (`deploy_service` and the deploy phase of `main`),
and the overall `main` control flow, including the effect of `set -e`
(the script aborts at the first failing command outside of an `if`
condition).

Part 2 models the web application's project-deletion route handler
(`web-app/app/api/projects/[projectId]/route.ts`), and Part 3 the
signed-URL route (`web-app/app/api/signed-url/route.ts`) together with
the file-upload route's S3 key construction.
-/

namespace VideoCopilot

/-- Byte-wise prefix test on character lists; `listStarts p s` is true when
`p` is an initial segment of `s`.  This is the semantics of bash
`grep -q "^PAT"` for a literal pattern and of JavaScript
`String.prototype.startsWith`. -/
def listStarts : List Char → List Char → Bool
  | [], _ => true
  | _ :: _, [] => false
  | p :: ps, c :: cs => if p = c then listStarts ps cs else false

/-- Definition `strStarts s pre` : the string `s` starts with `pre`. -/
def strStarts (s pre : String) : Bool :=
  listStarts pre.data s.data

/-- The four application services of the repository, the keys of the
`SERVICES` associative array in `k8s-deploy.sh`. -/
inductive Service where
  | webApp
  | embeddingService
  | intelligenceService
  | videoProcessingService
deriving DecidableEq, Repr, Fintype

/-- The service's name as used on the command line and in image tags. -/
def Service.name : Service → String
  | .webApp => "web-app"
  | .embeddingService => "embedding-service"
  | .intelligenceService => "intelligence-service"
  | .videoProcessingService => "video-processing-service"

/-- Mapping `SERVICES[$service]`: the source-directory path of each service,
used as a path pattern for change detection. -/
def Service.dir : Service → String
  | .webApp => "web-app/"
  | .embeddingService => "embedding-service/"
  | .intelligenceService => "intelligence-service/"
  | .videoProcessingService => "video-processing-service/"

/-- Iteration order of `"${!SERVICES[@]}"`.  Bash associative-array
iteration order is implementation defined; bash 5.2 (the interpreter the
repository targets) yields this order for these four keys.  Only the
relative order of builds depends on it; every theorem below is stated so
that it does not depend on which fixed order is chosen. -/
def serviceOrder : List Service :=
  [.intelligenceService, .videoProcessingService, .embeddingService, .webApp]

/-- The hard-coded deploy order of the deploy phase of `main`
(`deploy_order=("embedding-service" "intelligence-service"
"video-processing-service" "web-app")`). -/
def deployOrder : List Service :=
  [.embeddingService, .intelligenceService, .videoProcessingService, .webApp]

/-- Manifest file applied for a service by `deploy_service`. -/
def Service.manifestFile : Service → String
  | .webApp => "05-web-app.yaml"
  | .embeddingService => "02-embedding-service.yaml"
  | .intelligenceService => "03-intelligence-service.yaml"
  | .videoProcessingService => "04-video-processing-service.yaml"

def namespaceManifest : String := "00-namespace-secrets.yaml"

def databaseManifest : String := "01-database.yaml"

def ingressManifest : String := "06-ingress.yaml"

def monitoringManifest : String := "07-monitoring.yaml"

def jenkinsManifest : String := "jenkins-k8s.yaml"

/-- The infrastructure path patterns of
`grep -qE "^(k8s/|docker-compose|Dockerfile|infrastructure/|jenkins/)"`:
a changed file matching any of these marks all services for rebuild. -/
def infraPatterns : List String :=
  ["k8s/", "docker-compose", "Dockerfile", "infrastructure/", "jenkins/"]

/-- A changed file counts as an infrastructure change when it starts with
one of the `infraPatterns`. -/
def isInfraPath (f : String) : Bool :=
  infraPatterns.any (fun p => strStarts f p)

/-- A changed file under `SERVICES[$service]` marks the service for
rebuild (`grep -q "^$service_dir"`). -/
def matchesService (s : Service) (f : String) : Bool :=
  strStarts f s.dir

/-- Command-line flags of `k8s-deploy.sh` after `parse_args`; defaults as
set at the top of the script.  `targetService = ""` means `-s` was not
given. -/
structure Flags where
  dryRun : Bool := false
  buildAll : Bool := false
  skipBuild : Bool := false
  skipDeploy : Bool := false
  targetService : String := ""
deriving Repr, DecidableEq

/-- Outcome of the git commands the script runs.
`diffFiles = none` models `git diff --name-only HEAD~1 HEAD` failing
(e.g. no prior revision on a first run); `lsFiles = none` models
`git ls-files` failing as well. -/
structure GitState where
  diffFiles : Option (List String)
  lsFiles : Option (List String)
  commitHash : String

/-- Line `changed_files=$(git diff --name-only HEAD~1 HEAD 2>/dev/null || git ls-files)`.
When the diff fails the output of `git ls-files` is used; when both fail
the command substitution produces no output (the failing exit status is
ignored because `detect_changes` is executed inside an `if ! ...`
condition, where `set -e` is suspended), so `changed_files` is empty. -/
def changedFilesOutput (g : GitState) : List String :=
  (g.diffFiles.orElse (fun _ => g.lsFiles)).getD []

/-- Result of `detect_changes`: the value of the global `BUILD_ALL` after
the call, and its exit status (`selected = true` for exit status 0). -/
structure DetectOut where
  buildAll : Bool
  selected : Bool
deriving Repr, DecidableEq

/-- Function `detect_changes`, translated line by line:
early return when `BUILD_ALL` is already set or a target service is
given; otherwise compute the changed files; empty output returns 1;
the per-service loop collects `services_to_build`; an infrastructure
match sets `BUILD_ALL=true` and returns 0; an empty `services_to_build`
returns 1; otherwise return 0. -/
def detect_changes (fl : Flags) (g : GitState) : DetectOut :=
  if fl.buildAll || fl.targetService ≠ "" then
    ⟨fl.buildAll, true⟩
  else
    let changed := changedFilesOutput g
    if changed.isEmpty then
      ⟨fl.buildAll, false⟩
    else
      let toBuild := serviceOrder.filter (fun s => changed.any (matchesService s))
      if changed.any isInfraPath then
        ⟨true, true⟩
      else if toBuild.isEmpty then
        ⟨fl.buildAll, false⟩
      else
        ⟨fl.buildAll, true⟩

/-- Array `services_to_process` as computed in `main` after `detect_changes`
returned success: all services when `BUILD_ALL` is set, otherwise the
services whose directory matches a line of a fresh
`git diff --name-only HEAD~1 HEAD` (this second diff has no
`git ls-files` fallback: if it fails, its output is empty). -/
def servicesToProcess (buildAllNow : Bool) (g : GitState) : List Service :=
  if buildAllNow then
    serviceOrder
  else
    serviceOrder.filter (fun s => (g.diffFiles.getD []).any (matchesService s))

/-- The set of services the auto-detect path of `main` selects for
processing (empty when `detect_changes` reports nothing to do). -/
def selectedServices (fl : Flags) (g : GitState) : List Service :=
  let det := detect_changes fl g
  if !det.selected && det.buildAll = false then []
  else servicesToProcess det.buildAll g

/-- Constant `DOCKER_REGISTRY` (a placeholder value in the script). -/
def dockerRegistry : String := "your-registry.com"

/-- Tag `"${DOCKER_REGISTRY}/videocopilot/${service}:${commit_hash}"`. -/
def imageTag (s : Service) (h : String) : String :=
  dockerRegistry ++ "/videocopilot/" ++ s.name ++ ":" ++ h

/-- Tag `"${DOCKER_REGISTRY}/videocopilot/${service}:latest"`. -/
def latestTag (s : Service) : String :=
  dockerRegistry ++ "/videocopilot/" ++ s.name ++ ":latest"

/-- Identity of the image `docker build` produces for a service at a
commit: a function of the service's sources at that commit only, so
rebuilding the same commit reproduces the same image. -/
def imageContent (s : Service) (h : String) : String :=
  s.name ++ "@" ++ h

/-- Content `kubectl apply` stores for a manifest file, as a function of
the file and of the image rewrite (`sed "s|image: ...|image: TAG|g"`)
applied to it: `none` means the manifest is applied unchanged. -/
def renderManifest (m : String) (override : Option String) : String :=
  m ++ "#" ++ override.getD ""

/-- Timeout `--timeout=300s` of `kubectl rollout status` in `deploy_service`. -/
def rolloutTimeoutSeconds : Nat := 300

/-- Pointwise update of a string-keyed map. -/
def mapPut (m : String → Option String) (k v : String) : String → Option String :=
  fun k' => if k' = k then some v else m k'

/-- Apply a sequence of key-value writes to a map, in order (later
writes win). -/
def applyWrites (m : String → Option String) (ws : List (String × String)) :
    String → Option String :=
  ws.foldl (fun acc kv => mapPut acc kv.1 kv.2) m

/-- External mutable state that persists across runs of the script: the
container registry (tag name to image identity) and the cluster
(manifest file to last applied rendered content). -/
structure World where
  registry : String → Option String
  cluster : String → Option String

/-- Per-run environment: git results and which external commands
succeed (`buildOk s` — `docker build` and both `docker push`es for `s`;
`rolloutOk s` — `kubectl rollout status` for `s` completes within the
timeout). `kubectl apply` itself is assumed to succeed; the script has
no logic conditioned on its failure beyond `set -e`. -/
structure Env where
  git : GitState
  buildOk : Service → Bool
  rolloutOk : Service → Bool

/-- In-run state: the trace of completed builds, pushed tags, applied
manifest files (in application order), services whose `deploy_service`
completed, the `/tmp/videocopilot-*-image.txt` handoff files, and the
writes the run performs against the registry (`docker push`) and the
cluster (`kubectl apply`), in order.  The script never reads the
registry or cluster contents back (only `--cache-from`, which affects
build speed, not results), so the run is a pure producer of these write
sequences; `runMain` folds them into the `World` at the end. -/
structure RunState where
  built : List Service
  pushed : List String
  applied : List String
  deployed : List Service
  tmpImage : Service → Option String
  regWrites : List (String × String)
  cluWrites : List (String × String)

def initialRunState : RunState :=
  ⟨[], [], [], [], fun _ => none, [], []⟩

/-- Function `build_service`: under `--dry-run` nothing happens; otherwise
`docker build` tags the image with the commit hash and `latest`, pushes
both tags, and records the new tag in the `/tmp` handoff file.  A build
or push failure returns falsy, which under `set -e` aborts the script
(second component `false`).  The four service directories exist in the
repository, so the directory check passes. -/
def build_service (fl : Flags) (env : Env) (s : Service) (st : RunState) :
    RunState × Bool :=
  if fl.dryRun then
    (st, true)
  else if env.buildOk s then
    let it := imageTag s env.git.commitHash
    let lt := latestTag s
    let img := imageContent s env.git.commitHash
    ({ st with
        built := st.built ++ [s]
        pushed := st.pushed ++ [it, lt]
        regWrites := st.regWrites ++ [(it, img), (lt, img)]
        tmpImage := fun s' => if s' = s then some it else st.tmpImage s' },
      true)
  else
    (st, false)

/-- Function `deploy_service`: under `--dry-run` nothing happens; otherwise the
service's manifest is applied — with its image reference rewritten to
the freshly built tag when the `/tmp` handoff file exists — and then
`kubectl rollout status --timeout=300s` is awaited.  A timed-out rollout
wait returns non-zero, which under `set -e` aborts the script; nothing
already pushed or applied is undone, and the handoff file is only
removed on success. -/
def deploy_service (fl : Flags) (env : Env) (s : Service) (st : RunState) :
    RunState × Bool :=
  if fl.dryRun then
    (st, true)
  else
    let m := s.manifestFile
    let override := st.tmpImage s
    let st' := { st with
      cluWrites := st.cluWrites ++ [(m, renderManifest m override)]
      applied := st.applied ++ [m] }
    if env.rolloutOk s then
      ({ st' with
          deployed := st'.deployed ++ [s]
          tmpImage := fun s' => if s' = s then none else st'.tmpImage s' },
        true)
    else
      (st', false)

/-- The build phase loop of `main`: `build_service` for each selected
service in turn; the first failure aborts the whole script (`set -e`). -/
def buildLoop (fl : Flags) (env : Env) : List Service → RunState → RunState × Bool
  | [], st => (st, true)
  | s :: rest, st =>
    match build_service fl env s st with
    | (st', true) => buildLoop fl env rest st'
    | (st', false) => (st', false)

/-- Apply one of the unconditional manifests of the deploy phase
(namespace/secrets, database, ingress, monitoring, Jenkins); these
applications are not guarded by `--dry-run` in the script. -/
def applyPlain (m : String) (st : RunState) : RunState :=
  { st with
    cluWrites := st.cluWrites ++ [(m, renderManifest m none)]
    applied := st.applied ++ [m] }

/-- The per-service loop of the deploy phase, over `deploy_order`,
deploying the services selected for processing (or all of them under
`BUILD_ALL`); the first failing `deploy_service` aborts the script. -/
def deployLoop (fl : Flags) (env : Env) (sel : Service → Bool) :
    List Service → RunState → RunState × Bool
  | [], st => (st, true)
  | s :: rest, st =>
    if sel s then
      match deploy_service fl env s st with
      | (st', true) => deployLoop fl env sel rest st'
      | (st', false) => (st', false)
    else
      deployLoop fl env sel rest st

/-- The deploy phase of `main` (unless `--skip-deploy`): apply the
namespace/secrets and database manifests (`|| true`, so failures are
ignored), wait for postgres (`|| true` as well), deploy the selected
services in `deploy_order`, and finally apply the ingress manifest. -/
def deployPhase (fl : Flags) (env : Env) (buildAllNow : Bool)
    (stp : List Service) (st : RunState) : RunState × Bool :=
  if fl.skipDeploy then
    (st, true)
  else
    let st1 := applyPlain databaseManifest (applyPlain namespaceManifest st)
    let r := deployLoop fl env (fun s => stp.contains s || buildAllNow) deployOrder st1
    if r.2 then (applyPlain ingressManifest r.1, true) else r

/-- The auto-detect path of `main`: change detection, then the build
phase (first build failure aborts via `set -e`), then the deploy phase,
then health checks (`health_check` only reads cluster state and
tolerates probe failures with `|| print_warning`, so it has no state
effect).  Returns the final run state and the exit code (an abort exits
non-zero; 1 stands for any non-zero exit). -/
def runAuto (fl : Flags) (env : Env) (st0 : RunState) : RunState × Nat :=
  let det := detect_changes fl env.git
  if !det.selected && det.buildAll = false then
    (st0, 0)
  else
    let stp := servicesToProcess det.buildAll env.git
    let b :=
      if fl.skipBuild = false && stp.length > 0 then
        buildLoop fl env stp st0
      else
        (st0, true)
    if b.2 then
      let d := deployPhase fl env det.buildAll stp b.1
      if d.2 then (d.1, 0) else (d.1, 1)
    else
      (b.1, 1)

/-- Function `main`, from `parse_args` onward, with `kubectl` and `docker`
installed: the `--monitoring` and `--jenkins` modes, the explicit
`-s SERVICE` mode (build, deploy, health check, exit 0), and the
auto-detect path.  An unknown `-s` value falls through to the
auto-detect path, where `detect_changes` returns immediately because
`TARGET_SERVICE` is non-empty. -/
def runCore (fl : Flags) (env : Env) : RunState × Nat :=
  let st0 := initialRunState
  if fl.targetService = "monitoring" then
    (applyPlain monitoringManifest st0, 0)
  else if fl.targetService = "jenkins" then
    (applyPlain jenkinsManifest st0, 0)
  else if serviceOrder.any (fun s => s.name = fl.targetService) then
    let s := (serviceOrder.find? (fun s => s.name = fl.targetService)).getD .webApp
    let b := if fl.skipBuild then (st0, true) else build_service fl env s st0
    if b.2 then
      let d := if fl.skipDeploy then (b.1, true) else deploy_service fl env s b.1
      if d.2 then (d.1, 0) else (d.1, 1)
    else
      (b.1, 1)
  else
    runAuto fl env st0

/-- Result of one invocation of the script. -/
structure Outcome where
  exitCode : Nat
  built : List Service
  pushed : List String
  applied : List String
  deployed : List Service

/-- One invocation of the script against a world: run `main` and commit
the run's registry and cluster writes, in order. -/
def runMain (fl : Flags) (env : Env) (w : World) : World × Outcome :=
  let r := runCore fl env
  (⟨applyWrites w.registry r.1.regWrites, applyWrites w.cluster r.1.cluWrites⟩,
    ⟨r.2, r.1.built, r.1.pushed, r.1.applied, r.1.deployed⟩)

/-!
Part 2: the project-deletion handler of
`web-app/app/api/projects/[projectId]/route.ts` (DELETE), over the
Prisma data model of `web-app/prisma/migrations/20251003124931_init/migration.sql`.
-/

structure ProjectRow where
  id : String
  ownerId : String
deriving DecidableEq, Repr

structure VideoRow where
  id : String
  projectId : String
  s3Key : String
deriving DecidableEq, Repr

structure TranscriptRow where
  id : String
  videoId : String
deriving DecidableEq, Repr

structure EmbeddingRow where
  id : String
  projectId : String
deriving DecidableEq, Repr

/-- The database tables the deletion touches. -/
structure Db where
  projects : List ProjectRow
  videos : List VideoRow
  transcripts : List TranscriptRow
  embeddings : List EmbeddingRow
deriving Repr

/-- Referential integrity as enforced by the migration's foreign keys
(`Video_projectId_fkey`, `Transcript_videoId_fkey`,
`Embedding_projectId_fkey`, all `ON DELETE RESTRICT`): every child row's
parent exists. -/
def Db.integrity (db : Db) : Prop :=
  (∀ t ∈ db.transcripts, ∃ v ∈ db.videos, v.id = t.videoId) ∧
  (∀ v ∈ db.videos, ∃ p ∈ db.projects, p.id = v.projectId) ∧
  (∀ e ∈ db.embeddings, ∃ p ∈ db.projects, p.id = e.projectId)

instance (db : Db) : Decidable db.integrity := by
  unfold Db.integrity
  exact inferInstance

/-- The referential action of the four foreign keys in the migration. -/
inductive RefAction where
  | restrict
  | cascade
deriving DecidableEq, Repr

def videoProjectFkOnDelete : RefAction := .restrict

def transcriptVideoFkOnDelete : RefAction := .restrict

def embeddingProjectFkOnDelete : RefAction := .restrict

/-- Step 1 of the handler:
`prisma.transcript.deleteMany(\x7b where: \x7b video: \x7b projectId \x7d \x7d \x7d)` —
delete every transcript whose video belongs to the project. -/
def deleteTranscriptsOfProject (db : Db) (pid : String) : Db :=
  { db with
    transcripts := db.transcripts.filter
      (fun t => !(db.videos.any (fun v => v.id = t.videoId && v.projectId = pid))) }

/-- Step 2: `prisma.video.deleteMany(\x7b where: \x7b projectId \x7d \x7d)`. -/
def deleteVideosOfProject (db : Db) (pid : String) : Db :=
  { db with videos := db.videos.filter (fun v => !(v.projectId = pid : Bool)) }

/-- Step 3: `prisma.embedding.deleteMany(\x7b where: \x7b projectId \x7d \x7d)`. -/
def deleteEmbeddingsOfProject (db : Db) (pid : String) : Db :=
  { db with embeddings := db.embeddings.filter (fun e => !(e.projectId = pid : Bool)) }

/-- Step 4: `prisma.project.delete(\x7b where: \x7b id \x7d \x7d)`. -/
def deleteProjectRow (db : Db) (pid : String) : Db :=
  { db with projects := db.projects.filter (fun p => !(p.id = pid : Bool)) }

/-- The database delete operations the handler issues, in order. -/
inductive DelOp where
  | delTranscripts
  | delVideos
  | delEmbeddings
  | delProject
deriving DecidableEq, Repr

/-- The DELETE handler's database effect: authentication (`userId`), the
ownership check (`findFirst` on id and ownerId; absent project returns
404 and touches nothing), then the four explicit ordered deletes.  The
S3 and Pinecone cleanups are best-effort external calls with no database
effect.  Returns (HTTP status, final database, issued delete
operations in order). -/
def deleteProjectHandler (db : Db) (userId : Option String) (pid : String) :
    Nat × Db × List DelOp :=
  match userId with
  | none => (401, db, [])
  | some uid =>
    if db.projects.any (fun p => p.id = pid && p.ownerId = uid) then
      let db1 := deleteTranscriptsOfProject db pid
      let db2 := deleteVideosOfProject db1 pid
      let db3 := deleteEmbeddingsOfProject db2 pid
      let db4 := deleteProjectRow db3 pid
      (200, db4, [.delTranscripts, .delVideos, .delEmbeddings, .delProject])
    else
      (404, db, [])

/-!
Part 3: the signed-URL route (`web-app/app/api/signed-url/route.ts`)
and the S3 keys produced by the file-upload route.
-/

/-- Expression `file.name.replace(/[^a-zA-Z0-9.-]/g, '_')` in the upload route. -/
def safeName (name : String) : String :=
  ⟨name.data.map (fun c =>
    if ('a' ≤ c && c ≤ 'z') || ('A' ≤ c && c ≤ 'Z') || ('0' ≤ c && c ≤ '9')
        || c = '.' || c = '-' then c else '_')⟩

/-- The S3 key the upload route builds:
`` `$\x7buserId\x7d/$\x7bprojectId\x7d/videos/$\x7btimestamp\x7d-$\x7bsafeName\x7d` ``. -/
def uploadKey (userId projectId : String) (timestamp : Nat) (name : String) : String :=
  userId ++ "/" ++ projectId ++ "/videos/" ++ toString timestamp ++ "-" ++ safeName name

/-- The ownership check of the signed-URL route when no `videoId` is
supplied: `` key.startsWith(`uploads/$\x7buserId\x7d/`) ``. -/
def keyOwnedByUser (userId key : String) : Bool :=
  strStarts key ("uploads/" ++ userId ++ "/")

/-- HTTP status of the signed-URL POST handler: 401 without a user, 400
without a key (JavaScript `!key` is also true for the empty string),
then — with a `videoId` — 404 unless the video lookup scoped to the
user succeeds, or — without one — 403 unless the key passes
`keyOwnedByUser`; otherwise 200 with a signed URL. -/
def signedUrlStatus (userId : Option String) (key : String)
    (videoId : Option String) (videoAccessOk : Bool) : Nat :=
  match userId with
  | none => 401
  | some uid =>
    if key = "" then 400
    else
      match videoId with
      | some _ => if videoAccessOk then 200 else 404
      | none => if keyOwnedByUser uid key then 200 else 403

/-!
Part 4: auxiliary definitions used by the statements and proofs.
-/

/-- The last value written for a key by a write sequence, if any. -/
def lastW : List (String × String) → String → Option String
  | [], _ => none
  | kv :: rest, t =>
    match lastW rest t with
    | some v => some v
    | none => if t = kv.1 then some kv.2 else none

/-- Position of each manifest in the dependency order the script
encodes: namespace/secrets and database (data tier) first, then the
backend services, then the web app, then ingress. -/
def manifestRank (m : String) : Nat :=
  if m = namespaceManifest then 0
  else if m = databaseManifest then 1
  else if m = Service.manifestFile .embeddingService then 2
  else if m = Service.manifestFile .intelligenceService then 3
  else if m = Service.manifestFile .videoProcessingService then 4
  else if m = Service.manifestFile .webApp then 5
  else if m = ingressManifest then 6
  else 7

/-- The full manifest sequence of a complete deploy phase. -/
def canonicalDeploySequence : List String :=
  namespaceManifest :: databaseManifest ::
    (deployOrder.map Service.manifestFile ++ [ingressManifest])

/-- The tags `build_service` pushes for a list of built services at a
commit: for each service, the commit-hash tag and the `latest` tag. -/
def pushedTagsOf (built : List Service) (h : String) : List String :=
  built.flatMap (fun s => [imageTag s h, latestTag s])

/-- Run-state invariant: the pushed tags are exactly the commit-hash and
`latest` tags of the services built so far (in order), and every pushed
tag and applied manifest has a corresponding write in the run's write
trace. -/
def StInv (hc : String) (st : RunState) : Prop :=
  st.pushed = pushedTagsOf st.built hc ∧
  (∀ t ∈ st.pushed, ∃ v, (t, v) ∈ st.regWrites) ∧
  (∀ m ∈ st.applied, ∃ v, (m, v) ∈ st.cluWrites)

/-- A world with an empty registry and an untouched cluster. -/
def emptyWorld : World := ⟨fun _ => none, fun _ => none⟩

/-- Git state of the concrete scenario of the specification: one changed
file under `web-app/`. -/
def gitWebApp : GitState := ⟨some ["web-app/app/page.tsx"], some [], "abc1234"⟩

/-- Environment where every build and every rollout succeeds. -/
def envHappy : Env := ⟨gitWebApp, fun _ => true, fun _ => true⟩

/-- Git state with one infrastructure-prefixed changed file among
others. -/
def gitInfra : GitState :=
  ⟨some ["k8s/00-namespace-secrets.yaml", "README.md"], some [], "abc1234"⟩

/-- Git state with an empty diff (no changes since the last commit). -/
def gitNoChanges : GitState := ⟨some [], some [], "abc1234"⟩

def envNoChanges : Env := ⟨gitNoChanges, fun _ => true, fun _ => true⟩

/-- Git state of a first run: the revision-range diff fails and the
fallback `git ls-files` lists the repository's tracked files (which
include infrastructure paths). -/
def gitFirstRun : GitState :=
  ⟨none, some ["infrastructure/main.tf", "jenkins/setup-jenkins.sh",
    "web-app/app/page.tsx", "k8s-deploy.sh"], "abc1234"⟩

/-- Git state where both `git diff` and `git ls-files` fail. -/
def gitBothFail : GitState := ⟨none, none, "abc1234"⟩

def envBothFail : Env := ⟨gitBothFail, fun _ => true, fun _ => true⟩

/-- Environment where two services are selected and the build of
`embedding-service` fails while every other build would succeed. -/
def envOneBuildFails : Env :=
  ⟨⟨some ["web-app/app/page.tsx", "embedding-service/app/main.py"], some [], "abc1234"⟩,
    fun s => s != Service.embeddingService, fun _ => true⟩

/-- Environment where all builds succeed but every rollout wait times
out. -/
def envRolloutTimeout : Env := ⟨gitWebApp, fun _ => true, fun _ => false⟩

/-!
Lemmas about write sequences and the prefix test.
-/

theorem applyWrites_cons (m : String → Option String) (kv : String × String)
    (ws : List (String × String)) :
    applyWrites m (kv :: ws) = applyWrites (mapPut m kv.1 kv.2) ws := rfl

theorem lastW_cons (kv : String × String) (rest : List (String × String)) (t : String) :
    lastW (kv :: rest) t =
      match lastW rest t with
      | some v => some v
      | none => if t = kv.1 then some kv.2 else none := rfl

theorem applyWrites_lookup (ws : List (String × String)) (m : String → Option String)
    (t : String) :
    applyWrites m ws t = match lastW ws t with | some v => some v | none => m t := by
  induction ws generalizing m with
  | nil => rfl
  | cons kv rest ih =>
    rw [applyWrites_cons, ih, lastW_cons]
    cases h : lastW rest t with
    | some v => rfl
    | none =>
      simp only [mapPut]
      by_cases ht : t = kv.1 <;> simp [ht]

/-- Re-applying the same write sequence to its own result changes
nothing: per key, the last write wins both times. -/
theorem applyWrites_twice (m : String → Option String) (ws : List (String × String))
    (t : String) :
    applyWrites (applyWrites m ws) ws t = applyWrites m ws t := by
  rw [applyWrites_lookup, applyWrites_lookup]
  cases h : lastW ws t with
  | some v => rfl
  | none => rfl

theorem applyWrites_isSome_mono (m : String → Option String) (ws : List (String × String))
    (t : String) (h : (m t).isSome = true) : (applyWrites m ws t).isSome = true := by
  rw [applyWrites_lookup]
  cases lastW ws t with
  | some v => rfl
  | none => exact h

theorem lastW_isSome_of_mem (ws : List (String × String)) (t v : String)
    (h : (t, v) ∈ ws) : (lastW ws t).isSome = true := by
  induction ws with
  | nil => cases h
  | cons kv rest ih =>
    unfold lastW
    cases h2 : lastW rest t with
    | some w => rfl
    | none =>
      rcases List.mem_cons.mp h with h1 | h1
      · have ht : t = kv.1 := by rw [← h1]
        simp [ht]
      · have h3 := ih h1
        rw [h2] at h3
        cases h3

theorem applyWrites_isSome_of_mem (m : String → Option String)
    (ws : List (String × String)) (t v : String) (h : (t, v) ∈ ws) :
    (applyWrites m ws t).isSome = true := by
  rw [applyWrites_lookup]
  cases h2 : lastW ws t with
  | some w => rfl
  | none =>
    have := lastW_isSome_of_mem ws t v h
    rw [h2] at this
    cases this

theorem listStarts_refl (l : List Char) : listStarts l l = true := by
  induction l with
  | nil => rfl
  | cons c cs ih => simp [listStarts, ih]

theorem listStarts_append_left (x y s : List Char)
    (h : listStarts (x ++ y) s = true) : listStarts x s = true := by
  induction x generalizing s with
  | nil => rfl
  | cons c xs ih =>
    cases s with
    | nil => simp [listStarts] at h
    | cons d ds =>
      simp only [List.cons_append, listStarts] at h ⊢
      split at h
      next hcd => exact (if_pos hcd).symm ▸ (by simpa [hcd] using ih ds h)
      next => cases h

theorem listStarts_split (p a b : List Char) (h : listStarts p (a ++ b) = true) :
    listStarts p a = true ∨ ∃ q, p = a ++ q ∧ listStarts q b = true := by
  induction a generalizing p with
  | nil =>
    right
    exact ⟨p, (List.nil_append p).symm, h⟩
  | cons c as ih =>
    cases p with
    | nil => left; rfl
    | cons d ps =>
      simp only [List.cons_append, listStarts] at h
      split at h
      next hdc =>
        rcases ih ps h with h1 | ⟨q, hq1, hq2⟩
        · left
          simp [listStarts, hdc, h1]
        · right
          refine ⟨q, ?_, hq2⟩
          rw [hq1, hdc]
          rfl
      next => cases h

theorem strData_append (s t : String) : (s ++ t).data = s.data ++ t.data := by
  cases s
  cases t
  rfl

/-!
Frame and invariant lemmas about the run model.
-/

theorem build_service_frame (fl : Flags) (env : Env) (s : Service) (st : RunState) :
    ((build_service fl env s st).1).applied = st.applied ∧
    ((build_service fl env s st).1).deployed = st.deployed ∧
    ((build_service fl env s st).1).cluWrites = st.cluWrites := by
  unfold build_service
  split
  · exact ⟨rfl, rfl, rfl⟩
  · split
    · exact ⟨rfl, rfl, rfl⟩
    · exact ⟨rfl, rfl, rfl⟩

theorem buildLoop_frame (fl : Flags) (env : Env) (l : List Service) :
    ∀ st : RunState,
      ((buildLoop fl env l st).1).applied = st.applied ∧
      ((buildLoop fl env l st).1).deployed = st.deployed ∧
      ((buildLoop fl env l st).1).cluWrites = st.cluWrites := by
  induction l with
  | nil => intro st; exact ⟨rfl, rfl, rfl⟩
  | cons s rest ih =>
    intro st
    rcases hb : build_service fl env s st with ⟨st', ok⟩
    have hf := build_service_frame fl env s st
    rw [hb] at hf
    cases ok
    · simp only [buildLoop, hb]
      exact hf
    · simp only [buildLoop, hb]
      have hr := ih st'
      exact ⟨hr.1.trans hf.1, hr.2.1.trans hf.2.1, hr.2.2.trans hf.2.2⟩

theorem deploy_service_applied (fl : Flags) (env : Env) (s : Service) (st : RunState) :
    ((deploy_service fl env s st).1).applied = st.applied ∨
    ((deploy_service fl env s st).1).applied = st.applied ++ [s.manifestFile] := by
  unfold deploy_service
  split
  · exact Or.inl rfl
  · split
    · exact Or.inr rfl
    · exact Or.inr rfl

theorem deployLoop_applied (fl : Flags) (env : Env) (sel : Service → Bool)
    (l : List Service) :
    ∀ st : RunState, ∃ l',
      ((deployLoop fl env sel l st).1).applied = st.applied ++ l' ∧
      List.Sublist l' (l.map Service.manifestFile) := by
  induction l with
  | nil => intro st; exact ⟨[], by simp [deployLoop], by simp⟩
  | cons s rest ih =>
    intro st
    by_cases hs : sel s
    · rcases hd : deploy_service fl env s st with ⟨st', ok⟩
      have ha := deploy_service_applied fl env s st
      rw [hd] at ha
      cases ok
      · rcases ha with h | h
        · refine ⟨[], ?_, List.nil_sublist _⟩
          simp only [deployLoop, hs, if_true, hd]
          rw [h]
          simp
        · refine ⟨[s.manifestFile], ?_, List.singleton_sublist.mpr (List.mem_cons_self _ _)⟩
          simp only [deployLoop, hs, if_true, hd]
          rw [h]
      · rcases ih st' with ⟨l'', h1, h2⟩
        rcases ha with h | h
        · refine ⟨l'', ?_, h2.cons _⟩
          simp only [deployLoop, hs, if_true, hd]
          rw [h1, h]
        · refine ⟨s.manifestFile :: l'', ?_, h2.cons₂ _⟩
          simp only [deployLoop, hs, if_true, hd]
          rw [h1, h]
          simp
    · rcases ih st with ⟨l', h1, h2⟩
      refine ⟨l', ?_, h2.cons _⟩
      simp only [deployLoop, hs, if_false]
      exact h1

theorem pushedTagsOf_append (b1 b2 : List Service) (h : String) :
    pushedTagsOf (b1 ++ b2) h = pushedTagsOf b1 h ++ pushedTagsOf b2 h := by
  simp [pushedTagsOf]

theorem stInv_initial (hc : String) : StInv hc initialRunState := by
  refine ⟨rfl, ?_, ?_⟩ <;> intro x hx <;> cases hx

theorem stInv_build (fl : Flags) (env : Env) (s : Service) (st : RunState)
    (h : StInv env.git.commitHash st) :
    StInv env.git.commitHash (build_service fl env s st).1 := by
  unfold build_service
  split
  · exact h
  · split
    · refine ⟨?_, ?_, h.2.2⟩
      · show st.pushed ++ [imageTag s env.git.commitHash, latestTag s] =
          pushedTagsOf (st.built ++ [s]) env.git.commitHash
        rw [h.1, pushedTagsOf_append]
        rfl
      · intro t ht
        rcases List.mem_append.mp ht with h1 | h1
        · rcases h.2.1 t h1 with ⟨v, hv⟩
          exact ⟨v, List.mem_append_left _ hv⟩
        · rcases List.mem_cons.mp h1 with h2 | h2
          · exact ⟨imageContent s env.git.commitHash, by rw [h2]; simp⟩
          · rcases List.mem_cons.mp h2 with h3 | h3
            · exact ⟨imageContent s env.git.commitHash, by rw [h3]; simp⟩
            · cases h3
    · exact h

theorem stInv_deploy (hc : String) (fl : Flags) (env : Env) (s : Service)
    (st : RunState) (h : StInv hc st) : StInv hc (deploy_service fl env s st).1 := by
  unfold deploy_service
  split
  · exact h
  · have hcore : ∀ m', m' ∈ st.applied ++ [s.manifestFile] →
        ∃ v, (m', v) ∈ st.cluWrites ++
          [(s.manifestFile, renderManifest s.manifestFile (st.tmpImage s))] := by
      intro m' hmem
      rcases List.mem_append.mp hmem with h1 | h1
      · rcases h.2.2 m' h1 with ⟨v, hv⟩
        exact ⟨v, List.mem_append_left _ hv⟩
      · rcases List.mem_cons.mp h1 with h2 | h2
        · exact ⟨renderManifest s.manifestFile (st.tmpImage s), by rw [h2]; simp⟩
        · cases h2
    split
    · exact ⟨h.1, h.2.1, hcore⟩
    · exact ⟨h.1, h.2.1, hcore⟩

theorem stInv_applyPlain (hc : String) (m : String) (st : RunState)
    (h : StInv hc st) : StInv hc (applyPlain m st) := by
  refine ⟨h.1, h.2.1, ?_⟩
  intro m' hmem
  rcases List.mem_append.mp hmem with h1 | h1
  · rcases h.2.2 m' h1 with ⟨v, hv⟩
    exact ⟨v, List.mem_append_left _ hv⟩
  · rcases List.mem_cons.mp h1 with h2 | h2
    · exact ⟨renderManifest m none,
        by rw [h2]; exact List.mem_append_right _ (List.mem_singleton_self _)⟩
    · cases h2

theorem stInv_buildLoop (fl : Flags) (env : Env) (l : List Service) :
    ∀ st : RunState, StInv env.git.commitHash st →
      StInv env.git.commitHash (buildLoop fl env l st).1 := by
  induction l with
  | nil => intro st h; exact h
  | cons s rest ih =>
    intro st h
    rcases hb : build_service fl env s st with ⟨st', ok⟩
    have h' := stInv_build fl env s st h
    rw [hb] at h'
    cases ok
    · simpa only [buildLoop, hb] using h'
    · simpa only [buildLoop, hb] using ih st' h'

theorem stInv_deployLoop (hc : String) (fl : Flags) (env : Env)
    (sel : Service → Bool) (l : List Service) :
    ∀ st : RunState, StInv hc st → StInv hc (deployLoop fl env sel l st).1 := by
  induction l with
  | nil => intro st h; exact h
  | cons s rest ih =>
    intro st h
    by_cases hs : sel s
    · rcases hd : deploy_service fl env s st with ⟨st', ok⟩
      have h' := stInv_deploy hc fl env s st h
      rw [hd] at h'
      cases ok
      · simp only [deployLoop, hs, if_true, hd]
        exact h'
      · simp only [deployLoop, hs, if_true, hd]
        exact ih st' h'
    · have h1 := ih st h
      simp only [deployLoop, hs, if_false]
      exact h1

theorem stInv_ite {α : Type} (hc : String) (c : Prop) [Decidable c]
    (x y : RunState × α) (hx : StInv hc x.1) (hy : StInv hc y.1) :
    StInv hc (if c then x else y).1 := by
  by_cases h : c
  · rw [if_pos h]
    exact hx
  · rw [if_neg h]
    exact hy

theorem stInv_deployPhase (hc : String) (fl : Flags) (env : Env)
    (buildAllNow : Bool) (stp : List Service) (st : RunState)
    (h : StInv hc st) : StInv hc (deployPhase fl env buildAllNow stp st).1 := by
  have h3 := stInv_deployLoop hc fl env
    (fun s => stp.contains s || buildAllNow) deployOrder
    (applyPlain databaseManifest (applyPlain namespaceManifest st))
    (stInv_applyPlain hc databaseManifest _ (stInv_applyPlain hc namespaceManifest st h))
  exact stInv_ite hc _ _ _ h (stInv_ite hc _ _ _ (stInv_applyPlain hc ingressManifest _ h3) h3)

theorem stInv_runAuto (fl : Flags) (env : Env) (st0 : RunState)
    (h : StInv env.git.commitHash st0) :
    StInv env.git.commitHash (runAuto fl env st0).1 := by
  simp only [runAuto]
  exact stInv_ite _ _ _ _ h
    (stInv_ite _ _ _ _
      (stInv_ite _ _ _ _
        (stInv_deployPhase _ fl env _ _ _
          (stInv_ite _ _ _ _ (stInv_buildLoop fl env _ st0 h) h))
        (stInv_deployPhase _ fl env _ _ _
          (stInv_ite _ _ _ _ (stInv_buildLoop fl env _ st0 h) h)))
      (stInv_ite _ _ _ _ (stInv_buildLoop fl env _ st0 h) h))

theorem stInv_runCore (fl : Flags) (env : Env) :
    StInv env.git.commitHash (runCore fl env).1 := by
  have h0 := stInv_initial env.git.commitHash
  simp only [runCore]
  exact stInv_ite _ _ _ _ (stInv_applyPlain _ _ _ h0)
    (stInv_ite _ _ _ _ (stInv_applyPlain _ _ _ h0)
      (stInv_ite _ _ _ _
        (stInv_ite _ _ _ _
          (stInv_ite _ _ _ _
            (stInv_ite _ _ _ _
              (stInv_ite _ _ _ _ h0 (stInv_build fl env _ initialRunState h0))
              (stInv_deploy _ fl env _ _
                (stInv_ite _ _ _ _ h0 (stInv_build fl env _ initialRunState h0))))
            (stInv_ite _ _ _ _
              (stInv_ite _ _ _ _ h0 (stInv_build fl env _ initialRunState h0))
              (stInv_deploy _ fl env _ _
                (stInv_ite _ _ _ _ h0 (stInv_build fl env _ initialRunState h0)))))
          (stInv_ite _ _ _ _ h0 (stInv_build fl env _ initialRunState h0)))
        (stInv_runAuto fl env initialRunState h0)))

theorem applyPlain_applied (m : String) (st : RunState) :
    (applyPlain m st).applied = st.applied ++ [m] := rfl

theorem sublist_canonical_full (l' : List String)
    (h : List.Sublist l' (deployOrder.map Service.manifestFile)) :
    List.Sublist ([namespaceManifest, databaseManifest] ++ l' ++ [ingressManifest])
      canonicalDeploySequence := by
  simp only [canonicalDeploySequence, List.cons_append, List.nil_append, List.append_assoc]
  exact List.Sublist.cons₂ _ (List.Sublist.cons₂ _ (h.append (List.Sublist.refl _)))

theorem sublist_canonical_part (l' : List String)
    (h : List.Sublist l' (deployOrder.map Service.manifestFile)) :
    List.Sublist ([namespaceManifest, databaseManifest] ++ l') canonicalDeploySequence := by
  simp only [canonicalDeploySequence, List.cons_append, List.nil_append]
  exact List.Sublist.cons₂ _ (List.Sublist.cons₂ _
    (h.trans (List.sublist_append_left _ _)))

theorem deployPhase_applied (fl : Flags) (env : Env) (ban : Bool) (stp : List Service)
    (st : RunState) (h0 : st.applied = []) :
    List.Sublist ((deployPhase fl env ban stp st).1.applied) canonicalDeploySequence ∧
    ((deployPhase fl env ban stp st).2 = true →
      ((deployPhase fl env ban stp st).1.applied = [] ∨
        ((deployPhase fl env ban stp st).1.applied).getLast? = some ingressManifest)) := by
  simp only [deployPhase]
  obtain ⟨l', hap, hsub⟩ := deployLoop_applied fl env
    (fun s => stp.contains s || ban) deployOrder
    (applyPlain databaseManifest (applyPlain namespaceManifest st))
  have hst1 : (applyPlain databaseManifest (applyPlain namespaceManifest st)).applied
      = [namespaceManifest, databaseManifest] := by
    simp [applyPlain_applied, h0]
  rw [hst1] at hap
  split
  · refine ⟨?_, fun _ => Or.inl h0⟩
    rw [h0]
    exact List.nil_sublist _
  · split
    · constructor
      · rw [applyPlain_applied, hap]
        exact sublist_canonical_full l' hsub
      · intro _
        right
        rw [applyPlain_applied]
        exact List.getLast?_concat _
    · next hne =>
      refine ⟨?_, fun hcon => absurd hcon hne⟩
      rw [hap]
      exact sublist_canonical_part l' hsub

theorem runAuto_tail_applied (fl : Flags) (env : Env) (ban : Bool)
    (stp : List Service) (b : RunState × Bool) (hb : b.1.applied = []) :
    List.Sublist ((if b.2 = true then
        (if (deployPhase fl env ban stp b.1).2 = true
          then ((deployPhase fl env ban stp b.1).1, 0)
          else ((deployPhase fl env ban stp b.1).1, 1))
      else (b.1, 1)).1.applied) canonicalDeploySequence ∧
    ((if b.2 = true then
        (if (deployPhase fl env ban stp b.1).2 = true
          then ((deployPhase fl env ban stp b.1).1, 0)
          else ((deployPhase fl env ban stp b.1).1, 1))
      else (b.1, 1)).2 = 0 →
      (if b.2 = true then
        (if (deployPhase fl env ban stp b.1).2 = true
          then ((deployPhase fl env ban stp b.1).1, 0)
          else ((deployPhase fl env ban stp b.1).1, 1))
      else (b.1, 1)).1.applied ≠ [] →
      ((if b.2 = true then
        (if (deployPhase fl env ban stp b.1).2 = true
          then ((deployPhase fl env ban stp b.1).1, 0)
          else ((deployPhase fl env ban stp b.1).1, 1))
      else (b.1, 1)).1.applied).getLast? = some ingressManifest) := by
  have hd := deployPhase_applied fl env ban stp b.1 hb
  by_cases hb2 : b.2 = true
  · rw [if_pos hb2]
    by_cases hd2 : (deployPhase fl env ban stp b.1).2 = true
    · rw [if_pos hd2]
      refine ⟨hd.1, fun _ hne => ?_⟩
      rcases hd.2 hd2 with h1 | h1
      · exact absurd h1 hne
      · exact h1
    · rw [if_neg hd2]
      exact ⟨hd.1, fun hcon => by cases hcon⟩
  · rw [if_neg hb2]
    exact ⟨by rw [hb]; exact List.nil_sublist _, fun hcon => by cases hcon⟩

theorem runAuto_applied (fl : Flags) (env : Env) (st0 : RunState)
    (h0 : st0.applied = []) :
    List.Sublist ((runAuto fl env st0).1.applied) canonicalDeploySequence ∧
    ((runAuto fl env st0).2 = 0 → (runAuto fl env st0).1.applied ≠ [] →
      ((runAuto fl env st0).1.applied).getLast? = some ingressManifest) := by
  simp only [runAuto]
  split
  · exact ⟨by rw [h0]; exact List.nil_sublist _, fun _ hne => absurd h0 hne⟩
  · refine runAuto_tail_applied fl env _ _ _ ?_
    split
    · rw [(buildLoop_frame fl env _ st0).1]
      exact h0
    · exact h0

theorem runCore_applied (fl : Flags) (env : Env) (htarget : fl.targetService = "") :
    List.Sublist ((runCore fl env).1.applied) canonicalDeploySequence ∧
    ((runCore fl env).2 = 0 → (runCore fl env).1.applied ≠ [] →
      ((runCore fl env).1.applied).getLast? = some ingressManifest) := by
  simp only [runCore, htarget]
  rw [if_neg (by decide : ¬("" = "monitoring")), if_neg (by decide : ¬("" = "jenkins")),
    if_neg (by decide : ¬((serviceOrder.any (fun s => s.name = "")) = true))]
  exact runAuto_applied fl env initialRunState rfl

theorem canonical_pairwise :
    List.Pairwise (fun a b => manifestRank a < manifestRank b) canonicalDeploySequence := by
  decide

/-!
The claims.
-/

/-- C1: in every run that is not in single-service/monitoring/Jenkins
mode, the manifests are applied in strictly increasing dependency rank —
namespace/secrets then database (data tier) first, then the selected
backend services, then the web app, then ingress — so the ingress
manifest is never applied before the web-app manifest and no service
manifest is ever applied before the database manifest; moreover in a run
that exits successfully and applied anything, the ingress manifest is
applied last. -/
theorem claim_C1_manifest_order (fl : Flags) (env : Env) (w : World)
    (htarget : fl.targetService = "") :
    List.Pairwise (fun a b => manifestRank a < manifestRank b) (runMain fl env w).2.applied ∧
    ((runMain fl env w).2.exitCode = 0 → (runMain fl env w).2.applied ≠ [] →
      ((runMain fl env w).2.applied).getLast? = some ingressManifest) := by
  have h := runCore_applied fl env htarget
  exact ⟨canonical_pairwise.sublist h.1, h.2⟩

theorem claim_C1_manifest_order_witness :
    List.Pairwise (fun a b => manifestRank a < manifestRank b)
      (runMain {} envHappy emptyWorld).2.applied ∧
    ((runMain {} envHappy emptyWorld).2.exitCode = 0 →
      (runMain {} envHappy emptyWorld).2.applied ≠ [] →
      ((runMain {} envHappy emptyWorld).2.applied).getLast? = some ingressManifest) :=
  claim_C1_manifest_order {} envHappy emptyWorld rfl

theorem infra_selects_all_core (fl : Flags) (g : GitState)
    (htarget : fl.targetService = "")
    (hinfra : ∃ f ∈ changedFilesOutput g, isInfraPath f = true) :
    selectedServices fl g = serviceOrder := by
  obtain ⟨f, hf, hinf⟩ := hinfra
  rcases hba : fl.buildAll with _ | _
  · have hne : (changedFilesOutput g).isEmpty = false := by
      cases hc : changedFilesOutput g
      · rw [hc] at hf
        cases hf
      · rfl
    have hany : (changedFilesOutput g).any isInfraPath = true :=
      List.any_eq_true.mpr ⟨f, hf, hinf⟩
    simp [selectedServices, detect_changes, servicesToProcess, htarget, hba, hne, hany]
  · simp [selectedServices, detect_changes, servicesToProcess, htarget, hba]

/-- C2: whenever the changed-file list contains at least one path under
an infrastructure pattern (`k8s/`, `docker-compose`, `Dockerfile`,
`infrastructure/`, `jenkins/`), the change detector selects all four
known services for rebuild, regardless of the other paths. -/
theorem claim_C2_infra_selects_all (fl : Flags) (g : GitState)
    (htarget : fl.targetService = "")
    (hinfra : ∃ f ∈ changedFilesOutput g, isInfraPath f = true) :
    selectedServices fl g = serviceOrder ∧
    ∀ s : Service, s ∈ selectedServices fl g := by
  have h := infra_selects_all_core fl g htarget hinfra
  refine ⟨h, fun s => ?_⟩
  rw [h]
  cases s <;> decide

theorem claim_C2_infra_selects_all_witness :
    (∃ f ∈ changedFilesOutput gitInfra, isInfraPath f = true) ∧
    selectedServices {} gitInfra = serviceOrder ∧
    ∀ s : Service, s ∈ selectedServices {} gitInfra :=
  ⟨⟨"k8s/00-namespace-secrets.yaml", by decide, by decide⟩,
    claim_C2_infra_selects_all {} gitInfra rfl
      ⟨"k8s/00-namespace-secrets.yaml", by decide, by decide⟩⟩

/-- C3: when the diff succeeds and every changed path lies under exactly
one service's directory and under no infrastructure pattern, exactly
that service is selected; in particular the changed-file list
`["web-app/app/page.tsx"]` selects exactly `web-app`. -/
theorem claim_C3_single_service_selected (fl : Flags) (g : GitState) (s : Service)
    (files : List String)
    (htarget : fl.targetService = "") (hba : fl.buildAll = false)
    (hdiff : g.diffFiles = some files) (hne : files ≠ [])
    (hmatch : ∀ f ∈ files, matchesService s f = true)
    (honly : ∀ f ∈ files, ∀ s' : Service, matchesService s' f = true → s' = s)
    (hinfra : ∀ f ∈ files, isInfraPath f = false) :
    selectedServices fl g = [s] := by
  have hch : changedFilesOutput g = files := by
    simp [changedFilesOutput, hdiff, Option.orElse]
  have hfilter : serviceOrder.filter (fun s' => files.any (matchesService s')) = [s] := by
    have hpt : ∀ s' ∈ serviceOrder,
        (files.any (matchesService s')) = decide (s' = s) := by
      intro s' _
      by_cases h' : s' = s
      · subst h'
        obtain ⟨f0, hf0⟩ := List.exists_mem_of_ne_nil files hne
        simp only [decide_eq_true_eq, decide_True]
        exact List.any_eq_true.mpr ⟨f0, hf0, hmatch f0 hf0⟩
      · have : files.any (matchesService s') = false :=
          List.any_eq_false.mpr (fun f hf hm => h' (honly f hf s' hm))
        rw [this]
        simp [h']
    rw [List.filter_congr hpt]
    cases s <;> rfl
  have hie : files.isEmpty = false := by
    cases files
    · exact absurd rfl hne
    · rfl
  have hanyinf : files.any isInfraPath = false :=
    List.any_eq_false.mpr (fun f hf => by rw [hinfra f hf]; exact Bool.false_ne_true)
  have htb : (serviceOrder.filter (fun s' => files.any (matchesService s'))).isEmpty
      = false := by
    rw [hfilter]
    rfl
  simp [selectedServices, detect_changes, servicesToProcess, htarget, hba, hch,
    hie, hanyinf, htb, hdiff, hfilter]

theorem claim_C3_single_service_selected_witness :
    gitWebApp.diffFiles = some ["web-app/app/page.tsx"] ∧
    (∀ f ∈ ["web-app/app/page.tsx"], matchesService Service.webApp f = true) ∧
    (∀ f ∈ ["web-app/app/page.tsx"], ∀ s' : Service,
      matchesService s' f = true → s' = Service.webApp) ∧
    (∀ f ∈ ["web-app/app/page.tsx"], isInfraPath f = false) ∧
    selectedServices {} gitWebApp = [Service.webApp] :=
  ⟨rfl, by decide, by decide, by decide,
    claim_C3_single_service_selected {} gitWebApp Service.webApp
      ["web-app/app/page.tsx"] rfl rfl rfl (by decide) (by decide) (by decide) (by decide)⟩

/-- C5: with default flags and an empty changed-file set, the pipeline
builds no image, applies no manifest, exits 0, and leaves registry and
cluster untouched. -/
theorem claim_C5_empty_changes_noop (env : Env) (w : World)
    (hdiff : env.git.diffFiles = some []) :
    (runMain {} env w).2.exitCode = 0 ∧
    (runMain {} env w).2.built = [] ∧
    (runMain {} env w).2.pushed = [] ∧
    (runMain {} env w).2.applied = [] ∧
    (runMain {} env w).2.deployed = [] ∧
    (∀ t, (runMain {} env w).1.registry t = w.registry t) ∧
    (∀ m, (runMain {} env w).1.cluster m = w.cluster m) := by
  have hch : changedFilesOutput env.git = [] := by
    simp [changedFilesOutput, hdiff, Option.orElse]
  have hdet : detect_changes {} env.git = ⟨false, false⟩ := by
    simp [detect_changes, hch]
  have hcore : runCore {} env = (initialRunState, 0) := by
    simp only [runCore]
    rw [if_neg (by decide : ¬("" = "monitoring")), if_neg (by decide : ¬("" = "jenkins")),
      if_neg (by decide : ¬((serviceOrder.any (fun s => s.name = "")) = true))]
    simp [runAuto, hdet]
  refine ⟨?_, ?_, ?_, ?_, ?_, ?_, ?_⟩ <;>
    simp [runMain, hcore, applyWrites, initialRunState]

theorem claim_C5_empty_changes_noop_witness :
    envNoChanges.git.diffFiles = some [] ∧
    (runMain {} envNoChanges emptyWorld).2.exitCode = 0 ∧
    (runMain {} envNoChanges emptyWorld).2.built = [] ∧
    (runMain {} envNoChanges emptyWorld).2.applied = [] :=
  ⟨rfl, (claim_C5_empty_changes_noop envNoChanges emptyWorld rfl).1,
    (claim_C5_empty_changes_noop envNoChanges emptyWorld rfl).2.1,
    (claim_C5_empty_changes_noop envNoChanges emptyWorld rfl).2.2.2.1⟩

/-- C6 (amended): when the revision-range diff cannot be computed, change
detection falls back to the `git ls-files` output; since the
repository's tracked files include infrastructure paths, this selects
all services.  (The unamended claim's second half is refuted by
`claim_C6_counterexample`: a version-control error during change
detection is never fatal.) -/
theorem claim_C6_first_run_fallback (fl : Flags) (g : GitState) (fs : List String)
    (htarget : fl.targetService = "") (hdiff : g.diffFiles = none)
    (hls : g.lsFiles = some fs)
    (hinfra : ∃ f ∈ fs, isInfraPath f = true) :
    selectedServices fl g = serviceOrder := by
  apply infra_selects_all_core fl g htarget
  have hch : changedFilesOutput g = fs := by
    simp [changedFilesOutput, hdiff, hls, Option.orElse]
  rw [hch]
  exact hinfra

theorem claim_C6_first_run_fallback_witness :
    gitFirstRun.diffFiles = none ∧
    gitFirstRun.lsFiles = some ["infrastructure/main.tf", "jenkins/setup-jenkins.sh",
      "web-app/app/page.tsx", "k8s-deploy.sh"] ∧
    selectedServices {} gitFirstRun = serviceOrder :=
  ⟨rfl, rfl,
    claim_C6_first_run_fallback {} gitFirstRun
      ["infrastructure/main.tf", "jenkins/setup-jenkins.sh",
        "web-app/app/page.tsx", "k8s-deploy.sh"]
      rfl rfl rfl ⟨"infrastructure/main.tf", by decide, by decide⟩⟩

/-- C6 counterexample: on a run where the revision-range diff AND the
tracked-file listing both fail (a version-control error on the
change-detection path), the script selects no services and exits 0 as a
successful no-op — refuting both that the fallback "selects all" in
every such run and that a version-control error on this path is fatal. -/
theorem claim_C6_counterexample :
    gitBothFail.diffFiles = none ∧
    (runMain {} envBothFail emptyWorld).2.exitCode = 0 ∧
    (runMain {} envBothFail emptyWorld).2.built = [] ∧
    (runMain {} envBothFail emptyWorld).2.applied = [] ∧
    selectedServices {} gitBothFail = [] :=
  ⟨rfl, rfl, rfl, rfl, rfl⟩

/-- C4 (amended): under `set -e`, a build or push failure aborts the
entire remaining run, not just the failing service: in any auto-detect
run whose build phase fails, the script exits non-zero, deploys no
service, and applies no manifest — services selected alongside the
failing one are not built or deployed. -/
theorem claim_C4_build_failure_aborts_run (fl : Flags) (env : Env) (w : World)
    (htarget : fl.targetService = "") (hskip : fl.skipBuild = false)
    (hfail : (buildLoop fl env (selectedServices fl env.git) initialRunState).2 = false) :
    (runMain fl env w).2.exitCode = 1 ∧
    (runMain fl env w).2.deployed = [] ∧
    (runMain fl env w).2.applied = [] := by
  have hrc : (runMain fl env w).2.exitCode = (runCore fl env).2 := rfl
  have hdep : (runMain fl env w).2.deployed = (runCore fl env).1.deployed := rfl
  have happ : (runMain fl env w).2.applied = (runCore fl env).1.applied := rfl
  have hcore : runCore fl env = runAuto fl env initialRunState := by
    simp only [runCore, htarget]
    rw [if_neg (by decide : ¬("" = "monitoring")), if_neg (by decide : ¬("" = "jenkins")),
      if_neg (by decide : ¬((serviceOrder.any (fun s => s.name = "")) = true))]
  rw [hrc, hdep, happ, hcore]
  simp only [runAuto]
  by_cases hsel : (!(detect_changes fl env.git).selected &&
      decide ((detect_changes fl env.git).buildAll = false)) = true
  · exfalso
    have hss : selectedServices fl env.git = [] := by
      simp only [selectedServices]
      rw [if_pos hsel]
    rw [hss] at hfail
    exact absurd hfail (by simp [buildLoop])
  · have hss : selectedServices fl env.git =
        servicesToProcess (detect_changes fl env.git).buildAll env.git := by
      simp only [selectedServices]
      rw [if_neg hsel]
    rw [if_neg hsel]
    have hlen : (servicesToProcess (detect_changes fl env.git).buildAll env.git).length > 0 := by
      rcases hstp : servicesToProcess (detect_changes fl env.git).buildAll env.git with _ | ⟨a, l⟩
      · rw [hss, hstp] at hfail
        exact absurd hfail (by simp [buildLoop])
      · simp
    have hc1 : (decide (fl.skipBuild = false) &&
        decide ((servicesToProcess (detect_changes fl env.git).buildAll env.git).length > 0))
          = true := by
      simp [hskip, hlen]
    rw [if_pos hc1]
    have hb2 : (buildLoop fl env
        (servicesToProcess (detect_changes fl env.git).buildAll env.git)
        initialRunState).2 = false := by
      rw [← hss]
      exact hfail
    rw [if_neg (by rw [hb2]; exact Bool.false_ne_true)]
    refine ⟨rfl, ?_, ?_⟩
    · rw [(buildLoop_frame fl env _ initialRunState).2.1]
      rfl
    · rw [(buildLoop_frame fl env _ initialRunState).1]
      rfl

theorem claim_C4_build_failure_aborts_run_witness :
    (buildLoop {} envOneBuildFails
      (selectedServices {} envOneBuildFails.git) initialRunState).2 = false ∧
    (runMain {} envOneBuildFails emptyWorld).2.exitCode = 1 ∧
    (runMain {} envOneBuildFails emptyWorld).2.deployed = [] ∧
    (runMain {} envOneBuildFails emptyWorld).2.applied = [] :=
  ⟨rfl, claim_C4_build_failure_aborts_run {} envOneBuildFails emptyWorld rfl rfl rfl⟩

/-- C4 counterexample: the changed files select both `embedding-service`
and `web-app`, only the build of `embedding-service` fails
(`buildOk web-app = true`), yet the run aborts with nothing built,
nothing deployed and nothing applied — web-app's build and deploy do
NOT complete, refuting the claim that a failure aborts only the failing
service's deployment. -/
theorem claim_C4_counterexample :
    selectedServices {} envOneBuildFails.git =
      [Service.embeddingService, Service.webApp] ∧
    envOneBuildFails.buildOk Service.webApp = true ∧
    envOneBuildFails.buildOk Service.embeddingService = false ∧
    (runMain {} envOneBuildFails emptyWorld).2.exitCode = 1 ∧
    (runMain {} envOneBuildFails emptyWorld).2.built = [] ∧
    (runMain {} envOneBuildFails emptyWorld).2.deployed = [] ∧
    (runMain {} envOneBuildFails emptyWorld).2.applied = [] :=
  ⟨rfl, rfl, rfl, rfl, rfl, rfl, rfl⟩

/-- C7: the per-service rollout wait has the fixed timeout 300 s = 5
minutes; in a run where every build succeeds and the rollout wait times
out, the run is reported failed (non-zero exit), yet nothing is rolled
back: every tag the run pushed is still present in the registry, every
manifest it applied is still present in the cluster, and nothing that
was in the registry or cluster before the run has been removed. -/
theorem claim_C7_rollout_timeout_no_rollback (fl : Flags) (env : Env) (w : World)
    (hfl : fl = { buildAll := true }) (hbuild : env.buildOk = fun _ => true)
    (hroll : env.rolloutOk = fun _ => false) :
    rolloutTimeoutSeconds = 5 * 60 ∧
    (runMain fl env w).2.exitCode = 1 ∧
    (∀ t ∈ (runMain fl env w).2.pushed,
      ((runMain fl env w).1.registry t).isSome = true) ∧
    (∀ m ∈ (runMain fl env w).2.applied,
      ((runMain fl env w).1.cluster m).isSome = true) ∧
    (∀ t, (w.registry t).isSome = true →
      ((runMain fl env w).1.registry t).isSome = true) ∧
    (∀ m, (w.cluster m).isSome = true →
      ((runMain fl env w).1.cluster m).isSome = true) := by
  subst hfl
  refine ⟨rfl, ?_, ?_, ?_, ?_, ?_⟩
  · rcases env with ⟨g, bo, ro⟩
    obtain rfl : bo = fun _ => true := hbuild
    obtain rfl : ro = fun _ => false := hroll
    rfl
  · intro t ht
    obtain ⟨v, hv⟩ := (stInv_runCore _ env).2.1 t ht
    exact applyWrites_isSome_of_mem w.registry _ t v hv
  · intro m hm
    obtain ⟨v, hv⟩ := (stInv_runCore _ env).2.2 m hm
    exact applyWrites_isSome_of_mem w.cluster _ m v hv
  · intro t ht
    exact applyWrites_isSome_mono w.registry _ t ht
  · intro m hm
    exact applyWrites_isSome_mono w.cluster _ m hm

theorem claim_C7_rollout_timeout_no_rollback_witness :
    envRolloutTimeout.rolloutOk = (fun _ => false) ∧
    rolloutTimeoutSeconds = 5 * 60 ∧
    (runMain { buildAll := true } envRolloutTimeout emptyWorld).2.exitCode = 1 :=
  ⟨rfl,
    (claim_C7_rollout_timeout_no_rollback { buildAll := true } envRolloutTimeout
      emptyWorld rfl rfl rfl).1,
    (claim_C7_rollout_timeout_no_rollback { buildAll := true } envRolloutTimeout
      emptyWorld rfl rfl rfl).2.1⟩

/-- C8: running the pipeline twice with the same git state and
environment (no intervening changes) is idempotent: the second run's
outcome (exit code, builds, pushed tags, applied manifests) is identical
to the first's — in particular it produces no tag the first did not —
and re-committing the same writes leaves the registry and the cluster
exactly as after the first run; moreover each run tags every built
service only with the commit-hash tag and the `latest` tag. -/
theorem claim_C8_rerun_idempotent (fl : Flags) (env : Env) (w : World) :
    (runMain fl env (runMain fl env w).1).2 = (runMain fl env w).2 ∧
    (∀ t, (runMain fl env (runMain fl env w).1).1.registry t
      = (runMain fl env w).1.registry t) ∧
    (∀ m, (runMain fl env (runMain fl env w).1).1.cluster m
      = (runMain fl env w).1.cluster m) ∧
    (runMain fl env w).2.pushed
      = pushedTagsOf (runMain fl env w).2.built env.git.commitHash := by
  refine ⟨rfl, ?_, ?_, ?_⟩
  · intro t
    exact applyWrites_twice w.registry (runCore fl env).1.regWrites t
  · intro m
    exact applyWrites_twice w.cluster (runCore fl env).1.cluWrites m
  · exact (stInv_runCore fl env).1

/-!
Integrity of the ordered deletes of the project-deletion handler.
-/

theorem integrity_del1 (db : Db) (pid : String) (h : db.integrity) :
    (deleteTranscriptsOfProject db pid).integrity := by
  obtain ⟨h1, h2, h3⟩ := h
  refine ⟨?_, h2, h3⟩
  intro t ht
  exact h1 t (List.mem_filter.mp ht).1

theorem integrity_del2 (db : Db) (pid : String) (h : db.integrity) :
    (deleteVideosOfProject (deleteTranscriptsOfProject db pid) pid).integrity := by
  obtain ⟨h1, h2, h3⟩ := h
  refine ⟨?_, ?_, h3⟩
  · intro t ht
    obtain ⟨htmem, hpass⟩ := List.mem_filter.mp ht
    obtain ⟨v0, hv0mem, hv0id⟩ := h1 t htmem
    refine ⟨v0, List.mem_filter.mpr ⟨hv0mem, ?_⟩, hv0id⟩
    have hne : ¬(v0.projectId = pid) := by
      intro he
      have hany : db.videos.any (fun v => v.id = t.videoId && v.projectId = pid) = true :=
        List.any_eq_true.mpr ⟨v0, hv0mem, by simp [hv0id, he]⟩
      rw [hany] at hpass
      cases hpass
    simp [hne]
  · intro v hv
    exact h2 v (List.mem_filter.mp hv).1

theorem integrity_delEmb (db : Db) (pid : String) (h : db.integrity) :
    (deleteEmbeddingsOfProject db pid).integrity :=
  ⟨h.1, h.2.1, fun e he => h.2.2 e (List.mem_filter.mp he).1⟩

theorem integrity_delProj (db : Db) (pid : String) (h : db.integrity)
    (hv : ∀ v ∈ db.videos, v.projectId ≠ pid)
    (he : ∀ e ∈ db.embeddings, e.projectId ≠ pid) :
    (deleteProjectRow db pid).integrity := by
  refine ⟨h.1, ?_, ?_⟩
  · intro v hvm
    obtain ⟨p, hp, hpid⟩ := h.2.1 v hvm
    refine ⟨p, List.mem_filter.mpr ⟨hp, ?_⟩, hpid⟩
    have hne : ¬(p.id = pid) := by
      rw [hpid]
      exact hv v hvm
    simp [hne]
  · intro e hem
    obtain ⟨p, hp, hpid⟩ := h.2.2 e hem
    refine ⟨p, List.mem_filter.mpr ⟨hp, ?_⟩, hpid⟩
    have hne : ¬(p.id = pid) := by
      rw [hpid]
      exact he e hem
    simp [hne]

/-- C9: on project deletion the handler issues exactly the four explicit
deletes in child-first order — transcripts of the project's videos, then
its videos, then its embedding, then the project row (and nothing when
the project is not found) — and referential integrity (every child row's
parent exists, as enforced by the migration's `ON DELETE RESTRICT`
foreign keys rather than a cascade) holds after every single step. -/
theorem claim_C9_project_deletion_child_first (db : Db) (uid pid : String)
    (hint : db.integrity) :
    ((deleteProjectHandler db (some uid) pid).2.2 =
        [DelOp.delTranscripts, DelOp.delVideos, DelOp.delEmbeddings, DelOp.delProject] ∨
      (deleteProjectHandler db (some uid) pid).2.2 = []) ∧
    (deleteTranscriptsOfProject db pid).integrity ∧
    (deleteVideosOfProject (deleteTranscriptsOfProject db pid) pid).integrity ∧
    (deleteEmbeddingsOfProject
      (deleteVideosOfProject (deleteTranscriptsOfProject db pid) pid) pid).integrity ∧
    (deleteProjectRow (deleteEmbeddingsOfProject
      (deleteVideosOfProject (deleteTranscriptsOfProject db pid) pid) pid) pid).integrity ∧
    transcriptVideoFkOnDelete = RefAction.restrict ∧
    videoProjectFkOnDelete = RefAction.restrict ∧
    embeddingProjectFkOnDelete = RefAction.restrict := by
  have h1 := integrity_del1 db pid hint
  have h2 := integrity_del2 db pid hint
  have h3 := integrity_delEmb _ pid h2
  have h4 : (deleteProjectRow (deleteEmbeddingsOfProject
      (deleteVideosOfProject (deleteTranscriptsOfProject db pid) pid) pid) pid).integrity := by
    apply integrity_delProj _ pid h3
    · intro v hv
      have hpass := (List.mem_filter.mp hv).2
      intro he
      rw [he] at hpass
      simp at hpass
    · intro e hem
      have hpass := (List.mem_filter.mp hem).2
      intro he
      rw [he] at hpass
      simp at hpass
  refine ⟨?_, h1, h2, h3, h4, rfl, rfl, rfl⟩
  unfold deleteProjectHandler
  split
  · right
    rfl
  · split
    · left
      rfl
    · right
      rfl

theorem claim_C9_project_deletion_child_first_witness :
    (Db.integrity ⟨[⟨"p1", "u1"⟩, ⟨"p2", "u1"⟩],
      [⟨"v1", "p1", "k1"⟩, ⟨"v2", "p2", "k2"⟩],
      [⟨"t1", "v1"⟩, ⟨"t2", "v2"⟩], [⟨"e1", "p1"⟩]⟩) ∧
    ((deleteProjectHandler ⟨[⟨"p1", "u1"⟩, ⟨"p2", "u1"⟩],
        [⟨"v1", "p1", "k1"⟩, ⟨"v2", "p2", "k2"⟩],
        [⟨"t1", "v1"⟩, ⟨"t2", "v2"⟩], [⟨"e1", "p1"⟩]⟩ (some "u1") "p1").2.2 =
        [DelOp.delTranscripts, DelOp.delVideos, DelOp.delEmbeddings, DelOp.delProject] ∨
      (deleteProjectHandler ⟨[⟨"p1", "u1"⟩, ⟨"p2", "u1"⟩],
        [⟨"v1", "p1", "k1"⟩, ⟨"v2", "p2", "k2"⟩],
        [⟨"t1", "v1"⟩, ⟨"t2", "v2"⟩], [⟨"e1", "p1"⟩]⟩ (some "u1") "p1").2.2 = []) :=
  ⟨by decide,
    (claim_C9_project_deletion_child_first ⟨[⟨"p1", "u1"⟩, ⟨"p2", "u1"⟩],
      [⟨"v1", "p1", "k1"⟩, ⟨"v2", "p2", "k2"⟩],
      [⟨"t1", "v1"⟩, ⟨"t2", "v2"⟩], [⟨"e1", "p1"⟩]⟩ "u1" "p1" (by decide)).1⟩

/-!
The signed-URL ownership check versus the upload route's key shape.
-/

theorem listStarts_blocked (q a tail rest : List Char)
    (hsl : ('/' : Char) ∉ q) (hq : listStarts q a = false) :
    listStarts (q ++ tail) (a ++ '/' :: rest) = false := by
  rcases hb : listStarts (q ++ tail) (a ++ '/' :: rest) with _ | _
  · rfl
  · exfalso
    have h1 : listStarts q (a ++ '/' :: rest) = true := listStarts_append_left q tail _ hb
    rcases listStarts_split q a ('/' :: rest) h1 with h2 | ⟨q', hq1, hq2⟩
    · rw [h2] at hq
      cases hq
    · cases q' with
      | nil =>
        rw [List.append_nil] at hq1
        rw [hq1, listStarts_refl] at hq
        cases hq
      | cons c q'' =>
        have hc : c = '/' := by
          unfold listStarts at hq2
          split at hq2
          · assumption
          · cases hq2
        have hmem : c ∈ q := by
          rw [hq1]
          exact List.mem_append_right a (List.mem_cons_self c q'')
        rw [hc] at hmem
        exact hsl hmem

theorem uploadKey_data (u p n : String) (ts : Nat) :
    (uploadKey u p ts n).data = u.data ++ '/' ::
      (p.data ++ "/videos/".data ++ (toString ts).data ++ "-".data ++ (safeName n).data) := by
  simp only [uploadKey, strData_append]
  simp [List.append_assoc]

theorem uploadKey_fails_check (u p n : String) (ts : Nat)
    (hu : strStarts u "uploads" = false) :
    keyOwnedByUser u (uploadKey u p ts n) = false := by
  unfold keyOwnedByUser strStarts
  have hpre : ("uploads/" ++ u ++ "/").data
      = "uploads".data ++ ('/' :: (u.data ++ ['/'])) := by
    rw [strData_append, strData_append,
      show "uploads/".data = "uploads".data ++ ['/'] from rfl,
      show "/".data = ['/'] from rfl]
    simp [List.append_assoc]
  rw [hpre, uploadKey_data]
  exact listStarts_blocked "uploads".data u.data ('/' :: (u.data ++ ['/'])) _
    (by decide) hu

/-- C10: for an authenticated signed-URL request without a `videoId`,
the request returns 200 exactly when the key starts with
`uploads/<userId>/` and 403 exactly when it does not; and every key the
upload route produces (shape `<userId>/<projectId>/videos/<ts>-<name>`)
fails that check — for any user whose id does not itself start with
`uploads` — so such a request for an uploaded key is always rejected
with 403. -/
theorem claim_C10_signed_url_upload_key_mismatch (u p n k : String) (ts : Nat) (b : Bool)
    (hk : k ≠ "") (hu : strStarts u "uploads" = false) :
    (signedUrlStatus (some u) k none b = 200 ↔ keyOwnedByUser u k = true) ∧
    (signedUrlStatus (some u) k none b = 403 ↔ keyOwnedByUser u k = false) ∧
    keyOwnedByUser u (uploadKey u p ts n) = false ∧
    signedUrlStatus (some u) (uploadKey u p ts n) none b = 403 := by
  have hmain := uploadKey_fails_check u p n ts hu
  have hkne : uploadKey u p ts n ≠ "" := by
    intro he
    have hd : (uploadKey u p ts n).data = [] := by
      rw [he]
    rw [uploadKey_data] at hd
    rcases List.append_eq_nil.mp hd with ⟨_, hcons⟩
    cases hcons
  refine ⟨?_, ?_, hmain, ?_⟩
  · simp only [signedUrlStatus, if_neg hk]
    rcases hko : keyOwnedByUser u k with _ | _
    · simp [hko]
    · simp [hko]
  · simp only [signedUrlStatus, if_neg hk]
    rcases hko : keyOwnedByUser u k with _ | _
    · simp [hko]
    · simp [hko]
  · simp only [signedUrlStatus, if_neg hkne]
    simp [hmain]

theorem claim_C10_signed_url_upload_key_mismatch_witness :
    ("user123/proj9/x.mp4" ≠ "") ∧
    strStarts "user123" "uploads" = false ∧
    keyOwnedByUser "user123" (uploadKey "user123" "proj9" 17 "my video.mp4") = false ∧
    signedUrlStatus (some "user123") (uploadKey "user123" "proj9" 17 "my video.mp4")
      none false = 403 :=
  ⟨by decide, by decide,
    (claim_C10_signed_url_upload_key_mismatch "user123" "proj9" "my video.mp4"
      "user123/proj9/x.mp4" 17 false (by decide) (by decide)).2.2.1,
    (claim_C10_signed_url_upload_key_mismatch "user123" "proj9" "my video.mp4"
      "user123/proj9/x.mp4" 17 false (by decide) (by decide)).2.2.2⟩

end VideoCopilot
